import Mathlib

/-!
Verification of the path-resolution / tree-operations core of the Google
Drive file-management utility (`drive.py`).

The remote Drive store is modelled as a finite list of nodes; each remote
query of the source (the `service.files().list / get / update / delete`
calls) is modelled as a pure function over that list, and every operation
additionally returns the trace of remote calls it issued, so that
call-count and call-order properties can be stated.

Python string helpers used by the source (`str.strip('/')`,
`str.split('/')`, `os.path.basename`, `os.path.splitext`, `str(n)`) are
embedded as structurally recursive functions over the character list of a
`String`, with the semantics of the Python originals.
-/

deriving instance DecidableEq for Except

/-- A remote Drive node, with the metadata fields the source reads
(`id`, `name`, `mimeType`, `parents`, `trashed`).  Timestamps and size are
never consulted by the operations under verification and are omitted. -/
structure Node where
  id : String
  name : String
  mimeType : String
  parents : List String
  trashed : Bool
deriving DecidableEq, Repr

/-- The remote store: the finite collection of nodes it currently holds. -/
abbrev Drive := List Node

def folderMime : String := "application/vnd.google-apps.folder"

def docMime : String := "application/vnd.google-apps.document"

def sheetMime : String := "application/vnd.google-apps.spreadsheet"

def slidesMime : String := "application/vnd.google-apps.presentation"

def vndGoogleApps : String := "application/vnd.google-apps"

/-- Errors raised by the source: `FileNotFoundError(f"Cannot find '{part}'
in path '{path}'")` is carried structurally as the segment and the path
string interpolated into the message, and `ValueError` for unexported
Google Workspace types carries the offending mime type. -/
inductive DriveError where
  | fileNotFound (part : String) (path : String)
  | valueError (mimeType : String)
deriving DecidableEq, Repr

/-- The children query issued by `find_id_by_path`:
`name = '{part}' and '{parent_id}' in parents and trashed = false`. -/
def listQuery (d : Drive) (parentId part : String) : List Node :=
  d.filter (fun n => n.name == part && n.parents.contains parentId && !n.trashed)

/-- The children query issued by `delete_folder` and `list_files`:
`'{folder_id}' in parents and trashed = false`. -/
def listChildrenQ (d : Drive) (folderId : String) : List Node :=
  d.filter (fun n => n.parents.contains folderId && !n.trashed)

/-- Model of `service.files().get(fileId=..., fields='mimeType').execute()` followed
by `.get('mimeType', '')`: the mime type of the node, or `""` when the
store has no such node. -/
def getMime (d : Drive) (fileId : String) : String :=
  match d.find? (fun n => n.id == fileId) with
  | some n => n.mimeType
  | none => ""

/-- Model of `service.files().get(fileId=..., fields='parents').execute()` followed
by `.get('parents', [])`. -/
def getParents (d : Drive) (fileId : String) : List String :=
  match d.find? (fun n => n.id == fileId) with
  | some n => n.parents
  | none => []

/-- Model of `service.files().delete(fileId=...).execute()`: the store afterwards. -/
def deleteNode (d : Drive) (fileId : String) : Drive :=
  d.filter (fun n => n.id != fileId)

/-- Python `s.strip('/')`: remove every leading and trailing `'/'`. -/
def pyStripSlash (s : String) : String :=
  String.mk (((s.data.dropWhile (fun c => c == '/')).reverse.dropWhile
    (fun c => c == '/')).reverse)

def splitSlashAux : List Char → List Char → List String
  | [], acc => [String.mk acc.reverse]
  | c :: rest, acc =>
    if c == '/' then String.mk acc.reverse :: splitSlashAux rest []
    else splitSlashAux rest (c :: acc)

/-- Python `s.split('/')`: split at every `'/'`, keeping empty pieces
(so `"a//b".split('/') = ["a", "", "b"]`). -/
def splitSlash (s : String) : List String :=
  splitSlashAux s.data []

/-- The segment loop of `find_id_by_path` (drive.py lines 264-284): for
each remaining segment, issue the children query under the current parent;
raise `FileNotFoundError` naming the segment and `path` (the already
stripped path variable) when nothing matches, otherwise continue from the
id of the first match.  Returns the outcome together with the trace of
`(parent, segment)` children-lookup calls issued, in order. -/
def resolveLoop (d : Drive) (path : String) :
    List String → String → Except DriveError String × List (String × String)
  | [], parentId => (Except.ok parentId, [])
  | part :: rest, parentId =>
    match listQuery d parentId part with
    | [] => (Except.error (DriveError.fileNotFound part path), [(parentId, part)])
    | item :: _ =>
      let r := resolveLoop d path rest item.id
      (r.1, (parentId, part) :: r.2)

/-- Embedding of `find_id_by_path(service, path)` (drive.py lines 253-287): strip
slashes, return `'root'` for the empty path with no remote call, otherwise
walk the `'/'`-separated segments from `'root'`. -/
def find_id_by_path (d : Drive) (path : String) :
    Except DriveError String × List (String × String) :=
  let stripped := pyStripSlash path
  if stripped = "" then (Except.ok "root", [])
  else resolveLoop d stripped (splitSlash stripped) "root"

/-- The first-match walk the spec describes for `resolve`: segment by
segment, the first non-trashed matching child becomes the parent of the
next segment; `none` when some segment has no match.  Stated over the
source's own children query, for comparison with `find_id_by_path`. -/
def walkFirstMatch (d : Drive) : List String → String → Option String
  | [], parentId => some parentId
  | part :: rest, parentId =>
    match (listQuery d parentId part).head? with
    | none => none
    | some item => walkFirstMatch d rest item.id

/-- The call trace `t` is a left-to-right chained walk from `parentId`
ending in `result`: each recorded call queries the current parent, finds a
first match, and that match's id is the parent of the next call; the last
first-match id is `result`. -/
def chainedCalls (d : Drive) : List (String × String) → String → String → Prop
  | [], parentId, result => result = parentId
  | (p, s) :: rest, parentId, result =>
    p = parentId ∧
      match (listQuery d p s).head? with
      | none => False
      | some item => chainedCalls d rest item.id result

theorem resolveLoop_ok (d : Drive) (path : String) :
    ∀ (parts : List String) (parentId r : String),
      (resolveLoop d path parts parentId).1 = Except.ok r →
      (resolveLoop d path parts parentId).2.map Prod.snd = parts ∧
      (resolveLoop d path parts parentId).2.length = parts.length ∧
      chainedCalls d (resolveLoop d path parts parentId).2 parentId r := by
  intro parts
  induction parts with
  | nil =>
    intro parentId r h
    simp only [resolveLoop] at h ⊢
    cases h
    simp [chainedCalls]
  | cons part rest ih =>
    intro parentId r h
    cases hq : listQuery d parentId part with
    | nil =>
      simp only [resolveLoop, hq] at h
      exact Except.noConfusion h
    | cons item tail =>
      simp only [resolveLoop, hq] at h ⊢
      obtain ⟨h1, h2, h3⟩ := ih item.id r h
      refine ⟨by simpa using h1, by simpa using h2, ?_⟩
      simp only [chainedCalls, hq, List.head?]
      exact ⟨trivial, h3⟩

theorem walkFirstMatch_resolveLoop (d : Drive) (path : String) :
    ∀ (parts : List String) (parentId r : String),
      walkFirstMatch d parts parentId = some r →
      (resolveLoop d path parts parentId).1 = Except.ok r := by
  intro parts
  induction parts with
  | nil =>
    intro parentId r h
    simp only [walkFirstMatch] at h
    cases h
    rfl
  | cons part rest ih =>
    intro parentId r h
    cases hq : listQuery d parentId part with
    | nil =>
      simp only [walkFirstMatch, hq, List.head?] at h
      exact Option.noConfusion h
    | cons item tail =>
      simp only [walkFirstMatch, hq, List.head?] at h
      simp only [resolveLoop, hq]
      exact ih item.id r h

/-- C1: on a non-empty (stripped) path all of whose segments resolve,
`find_id_by_path` succeeds with the first-match id of the final segment,
issues exactly one children-lookup call per segment — one call whose query
names each segment, `len(segments)` in total — and the calls chain
left-to-right: each segment's first-match id is the parent queried for the
next segment. -/
theorem find_id_by_path_one_call_per_segment (d : Drive) (path r : String)
    (h0 : pyStripSlash path ≠ "")
    (h1 : walkFirstMatch d (splitSlash (pyStripSlash path)) "root" = some r) :
    (find_id_by_path d path).1 = Except.ok r ∧
    (find_id_by_path d path).2.map Prod.snd = splitSlash (pyStripSlash path) ∧
    (find_id_by_path d path).2.length = (splitSlash (pyStripSlash path)).length ∧
    chainedCalls d (find_id_by_path d path).2 "root" r := by
  have hok := walkFirstMatch_resolveLoop d (pyStripSlash path)
    (splitSlash (pyStripSlash path)) "root" r h1
  have hrest := resolveLoop_ok d (pyStripSlash path)
    (splitSlash (pyStripSlash path)) "root" r hok
  simp only [find_id_by_path, if_neg h0]
  exact ⟨hok, hrest.1, hrest.2.1, hrest.2.2⟩

/-- Concrete two-level store: `a` is a folder under the root, `b` a file
inside `a`. -/
def driveAB : Drive :=
  [⟨"idA", "a", folderMime, ["root"], false⟩,
   ⟨"idB", "b", "text/plain", ["idA"], false⟩]

theorem find_id_by_path_one_call_per_segment_witness :
    pyStripSlash "/a/b" ≠ "" ∧
    walkFirstMatch driveAB (splitSlash (pyStripSlash "/a/b")) "root" = some "idB" ∧
    ((find_id_by_path driveAB "/a/b").1 = Except.ok "idB" ∧
     (find_id_by_path driveAB "/a/b").2.map Prod.snd =
       splitSlash (pyStripSlash "/a/b") ∧
     (find_id_by_path driveAB "/a/b").2.length =
       (splitSlash (pyStripSlash "/a/b")).length ∧
     chainedCalls driveAB (find_id_by_path driveAB "/a/b").2 "root" "idB") :=
  ⟨by decide, by decide,
   find_id_by_path_one_call_per_segment driveAB "/a/b" "idB" (by decide) (by decide)⟩

theorem resolveLoop_error_at (d : Drive) (path : String) :
    ∀ (parts : List String) (k : Nat) (parentId p : String) (hk : k < parts.length),
      walkFirstMatch d (parts.take k) parentId = some p →
      listQuery d p (parts.get ⟨k, hk⟩) = [] →
      (resolveLoop d path parts parentId).1 =
        Except.error (DriveError.fileNotFound (parts.get ⟨k, hk⟩) path) := by
  intro parts
  induction parts with
  | nil =>
    intro k parentId p hk
    exact absurd hk (by simp)
  | cons part rest ih =>
    intro k parentId p hk hwalk hfail
    cases k with
    | zero =>
      simp only [List.take, walkFirstMatch] at hwalk
      cases hwalk
      simp only [List.get] at hfail ⊢
      simp only [resolveLoop, hfail]
    | succ k =>
      simp only [List.take] at hwalk
      cases hq : listQuery d parentId part with
      | nil =>
        simp only [walkFirstMatch, hq, List.head?] at hwalk
        exact Option.noConfusion hwalk
      | cons item tail =>
        simp only [walkFirstMatch, hq, List.head?] at hwalk
        simp only [List.get] at hfail ⊢
        simp only [resolveLoop, hq]
        exact ih k item.id p (Nat.lt_of_succ_lt_succ hk) hwalk hfail

/-- C4 counterexample: the `FileNotFoundError` message interpolates the
stripped path variable, not the path as the caller supplied it: resolving
`"/a/missing/b"` reports the path as `"a/missing/b"`. -/
theorem find_id_by_path_counterexample_original_path :
    (find_id_by_path driveAB "/a/missing/b").1 =
      Except.error (DriveError.fileNotFound "missing" "a/missing/b") ∧
    "a/missing/b" ≠ "/a/missing/b" :=
  ⟨by decide, by decide⟩

/-- C4 (amended): when segment `k` is the first segment with no
non-trashed matching child under the parent resolved so far,
`find_id_by_path` fails with `FileNotFoundError` naming that segment and
the full path with leading/trailing slashes stripped (not a suffix of it),
irrespective of the segments after `k`. -/
theorem find_id_by_path_error_names_stripped_path (d : Drive) (path : String)
    (k : Nat) (p : String)
    (h0 : pyStripSlash path ≠ "")
    (hk : k < (splitSlash (pyStripSlash path)).length)
    (hwalk : walkFirstMatch d ((splitSlash (pyStripSlash path)).take k) "root" = some p)
    (hfail : listQuery d p ((splitSlash (pyStripSlash path)).get ⟨k, hk⟩) = []) :
    (find_id_by_path d path).1 =
      Except.error (DriveError.fileNotFound
        ((splitSlash (pyStripSlash path)).get ⟨k, hk⟩) (pyStripSlash path)) := by
  simp only [find_id_by_path, if_neg h0]
  exact resolveLoop_error_at d (pyStripSlash path) (splitSlash (pyStripSlash path))
    k "root" p hk hwalk hfail

theorem find_id_by_path_error_names_stripped_path_witness :
    (find_id_by_path driveAB "/a/missing/b").1 =
      Except.error (DriveError.fileNotFound
        ((splitSlash (pyStripSlash "/a/missing/b")).get ⟨1, by decide⟩)
        (pyStripSlash "/a/missing/b")) :=
  find_id_by_path_error_names_stripped_path driveAB "/a/missing/b" 1 "idA"
    (by decide) (by decide) (by decide) (by decide)

theorem strip_data_append_slash (q : Char → Bool) (hq : q '/' = true) :
    ∀ l : List Char,
      (((l ++ ['/']).dropWhile q).reverse.dropWhile q).reverse =
      ((l.dropWhile q).reverse.dropWhile q).reverse := by
  intro l
  induction l with
  | nil =>
    simp [List.dropWhile, hq]
  | cons c l ih =>
    by_cases hc : q c = true
    · simpa [List.dropWhile, hc] using ih
    · simp only [List.cons_append, List.dropWhile, hc, Bool.false_eq_true, if_false,
        List.reverse_cons, List.reverse_append]
      simp [List.dropWhile, hq]

theorem pyStripSlash_cons_slash (path : String) :
    pyStripSlash ("/" ++ path) = pyStripSlash path := by
  simp only [pyStripSlash, String.data_append]
  norm_num [List.dropWhile]

theorem pyStripSlash_append_slash (path : String) :
    pyStripSlash (path ++ "/") = pyStripSlash path := by
  have h := strip_data_append_slash (fun c => c == '/') (by decide) path.data
  simp only [pyStripSlash, String.data_append]
  exact congrArg String.mk h

/-- C8 counterexample: interior empty segments are not collapsed:
with `a` a folder under the root and `b` inside `a`, `"a/b"` resolves to
`b`'s id but `"a//b"` fails, looking up an empty-named segment. -/
theorem find_id_by_path_counterexample_interior_slash :
    (find_id_by_path driveAB "a/b").1 = Except.ok "idB" ∧
    (find_id_by_path driveAB "a//b").1 =
      Except.error (DriveError.fileNotFound "" "a//b") :=
  ⟨by decide, by decide⟩

/-- C8 (amended): `find_id_by_path` ignores leading and trailing slashes —
prepending or appending a slash changes neither the outcome nor the lookup
calls issued — but interior empty segments are not collapsed: a doubled
interior slash yields an empty segment that is looked up like any other
and fails unless some child has an empty name. -/
theorem find_id_by_path_ignores_outer_slashes (d : Drive) (path : String) :
    find_id_by_path d ("/" ++ path) = find_id_by_path d path ∧
    find_id_by_path d (path ++ "/") = find_id_by_path d path := by
  constructor
  · simp only [find_id_by_path, pyStripSlash_cons_slash]
  · simp only [find_id_by_path, pyStripSlash_append_slash]

/-- Embedding of `delete_file(service, file_id)` (drive.py lines 289-291): one remote
delete call. -/
def delete_file (d : Drive) (fileId : String) : Drive × List String :=
  (deleteNode d fileId, [fileId])

/-- The child loop of `delete_folder` (drive.py lines 305-310): walk the
enumerated children in order; a child folder is handled by `recF` (the
recursive `delete_folder` at one smaller depth budget), a child file by
`delete_file`.  Threads the store and accumulates the delete calls issued;
`none` when a recursive call exhausts its depth budget. -/
def runChildren (recF : Drive → String → Option (Drive × List String)) :
    Drive → List Node → Option (Drive × List String)
  | d, [] => some (d, [])
  | d, item :: rest =>
    if item.mimeType == folderMime then
      match recF d item.id with
      | none => none
      | some (d1, cs1) =>
        match runChildren recF d1 rest with
        | none => none
        | some (d2, cs2) => some (d2, cs1 ++ cs2)
    else
      let r := delete_file d item.id
      match runChildren recF r.1 rest with
      | none => none
      | some (d2, cs2) => some (d2, r.2 ++ cs2)

/-- Embedding of `delete_folder(service, folder_id, recursive=True)` (drive.py lines
293-314).  When `recursive` is true it enumerates the direct non-trashed
children, deletes each (folders recursively, files directly) and then
deletes the folder itself; when `recursive` is false it skips straight to
deleting the folder itself.  `fuel` bounds the recursion depth of the
Python call stack; `none` means the bound was exceeded. -/
def delete_folder : Nat → Drive → String → Bool → Option (Drive × List String)
  | 0, _, _, _ => none
  | Nat.succ fuel, d, folderId, recursive =>
    if recursive then
      match runChildren (fun d1 fid => delete_folder fuel d1 fid true) d
          (listChildrenQ d folderId) with
      | none => none
      | some (d1, cs) => some (deleteNode d1 folderId, cs ++ [folderId])
    else
      some (deleteNode d folderId, [folderId])

/-- Store for the delete claims: folder `f` under the root containing file
`c1.txt` and subfolder `g`, which contains file `c2.txt`. -/
def dDel : Drive :=
  [⟨"idF", "f", folderMime, ["root"], false⟩,
   ⟨"idf1", "c1.txt", "text/plain", ["idF"], false⟩,
   ⟨"idG", "g", folderMime, ["idF"], false⟩,
   ⟨"idg1", "c2.txt", "text/plain", ["idG"], false⟩]

/-- C2 (code bug, at the failing input): folder `idF` has non-trashed
children, yet `delete_folder` with `recursive=False` raises no NotEmpty
error and issues no zero-delete failure: it deletes the folder itself with
exactly one remote delete call and reports success. -/
theorem delete_folder_nonrecursive_ignores_children :
    listChildrenQ dDel "idF" ≠ [] ∧
    delete_folder 1 dDel "idF" false = some (deleteNode dDel "idF", ["idF"]) :=
  ⟨by decide, by decide⟩

/-- Per-child decomposition of a recursive delete's call list: the entry
for a child file is exactly its one delete call, the entry for a child
folder is exactly the call list of that subfolder's recursive delete run
against the store as it stood at that child's turn. -/
def childrenCallsOk (fuel : Nat) : Drive → List Node → List (List String) → Prop
  | _, [], css => css = []
  | d, item :: rest, css =>
    match css with
    | [] => False
    | cs :: css2 =>
      if item.mimeType == folderMime then
        ∃ d1, delete_folder fuel d item.id true = some (d1, cs) ∧
          childrenCallsOk fuel d1 rest css2
      else
        cs = [item.id] ∧ childrenCallsOk fuel (deleteNode d item.id) rest css2

theorem runChildren_decomp (fuel : Nat) :
    ∀ (items : List Node) (d dEnd : Drive) (cs : List String),
      runChildren (fun d1 fid => delete_folder fuel d1 fid true) d items =
        some (dEnd, cs) →
      ∃ css : List (List String),
        css.length = items.length ∧
        childrenCallsOk fuel d items css ∧
        cs = css.flatten := by
  intro items
  induction items with
  | nil =>
    intro d dEnd cs h
    simp only [runChildren, Option.some.injEq, Prod.mk.injEq] at h
    exact ⟨[], rfl, rfl, h.2.symm⟩
  | cons item rest ih =>
    intro d dEnd cs h
    cases hm : (item.mimeType == folderMime) with
    | true =>
      simp only [runChildren, hm, if_true] at h
      cases hrec : delete_folder fuel d item.id true with
      | none => rw [hrec] at h; exact Option.noConfusion h
      | some p =>
        obtain ⟨d1, cs1⟩ := p
        simp only [hrec] at h
        cases hrest : runChildren (fun d1 fid => delete_folder fuel d1 fid true)
            d1 rest with
        | none =>
          simp only [hrest] at h
          exact Option.noConfusion h
        | some q =>
          obtain ⟨d2, cs2⟩ := q
          simp only [hrest, Option.some.injEq, Prod.mk.injEq] at h
          obtain ⟨css2, hlen, hok, hflat⟩ := ih d1 d2 cs2 hrest
          refine ⟨cs1 :: css2, by simp [hlen], ?_, ?_⟩
          · simp only [childrenCallsOk, hm, if_true]
            exact ⟨d1, hrec, hok⟩
          · simp [List.flatten, ← hflat, ← h.2]
    | false =>
      simp only [runChildren, hm, Bool.false_eq_true, if_false, delete_file] at h
      cases hrest : runChildren (fun d1 fid => delete_folder fuel d1 fid true)
          (deleteNode d item.id) rest with
      | none =>
        simp only [hrest] at h
        exact Option.noConfusion h
      | some q =>
        obtain ⟨d2, cs2⟩ := q
        simp only [hrest, Option.some.injEq, Prod.mk.injEq] at h
        obtain ⟨css2, hlen, hok, hflat⟩ := ih (deleteNode d item.id) d2 cs2 hrest
        refine ⟨[item.id] :: css2, by simp [hlen], ?_, ?_⟩
        · simp only [childrenCallsOk, hm, Bool.false_eq_true, if_false]
          refine ⟨by simp, hok⟩
        · simp [List.flatten, ← hflat, ← h.2]

theorem childrenCallsOk_count (fuel : Nat) :
    ∀ (items : List Node) (d : Drive) (css : List (List String)),
      childrenCallsOk fuel d items css →
      (css.map List.length).sum =
        (items.filter (fun n => !(n.mimeType == folderMime))).length +
        (((items.zip css).filter (fun p => p.1.mimeType == folderMime)).map
          (fun p => p.2.length)).sum := by
  intro items
  induction items with
  | nil =>
    intro d css h
    simp only [childrenCallsOk] at h
    subst h
    simp
  | cons item rest ih =>
    intro d css h
    cases css with
    | nil => simp only [childrenCallsOk] at h
    | cons cs css2 =>
      simp only [childrenCallsOk] at h
      cases hm : (item.mimeType == folderMime) with
      | true =>
        rw [hm] at h
        simp only [if_true] at h
        obtain ⟨d1, _, hok⟩ := h
        have := ih d1 css2 hok
        simp only [List.map, List.sum_cons, List.filter, List.zip, hm, this]
        simp [List.zipWith, List.filter, hm]
        omega
      | false =>
        rw [hm] at h
        simp only [Bool.false_eq_true, if_false] at h
        obtain ⟨hcs, hok⟩ := h
        have := ih (deleteNode d item.id) css2 hok
        subst hcs
        simp only [List.map, List.sum_cons, List.filter, List.zip, hm, this]
        simp [List.zipWith, List.filter, hm]
        omega

/-- C3: a successful `delete_folder(..., recursive=True)` run enumerates
the direct non-trashed children once and its delete-call trace decomposes
child by child — one delete call per child file, the full recursive call
list per child subfolder — followed by the folder's own delete call last,
for a total of N (child files) + the subfolder contributions + 1 calls,
every child call issued before the folder's own. -/
theorem delete_folder_recursive_children_before_parent (fuel : Nat) (d : Drive)
    (folderId : String) (d2 : Drive) (calls : List String)
    (h : delete_folder (fuel + 1) d folderId true = some (d2, calls)) :
    ∃ css : List (List String),
      css.length = (listChildrenQ d folderId).length ∧
      childrenCallsOk fuel d (listChildrenQ d folderId) css ∧
      calls = css.flatten ++ [folderId] ∧
      calls.length =
        ((listChildrenQ d folderId).filter
          (fun n => !(n.mimeType == folderMime))).length +
        ((((listChildrenQ d folderId).zip css).filter
            (fun p => p.1.mimeType == folderMime)).map (fun p => p.2.length)).sum
        + 1 := by
  simp only [delete_folder, if_true] at h
  cases hrun : runChildren (fun d1 fid => delete_folder fuel d1 fid true) d
      (listChildrenQ d folderId) with
  | none =>
    simp only [hrun] at h
    exact Option.noConfusion h
  | some q =>
    obtain ⟨d1, cs⟩ := q
    simp only [hrun, Option.some.injEq, Prod.mk.injEq] at h
    obtain ⟨css, hlen, hok, hflat⟩ :=
      runChildren_decomp fuel (listChildrenQ d folderId) d d1 cs hrun
    refine ⟨css, hlen, hok, ?_, ?_⟩
    · rw [← h.2, hflat]
    · rw [← h.2, hflat]
      have hcount := childrenCallsOk_count fuel (listChildrenQ d folderId) d css hok
      simp [List.length_flatten, hcount]

theorem delete_folder_recursive_children_before_parent_witness :
    delete_folder 2 dDel "idF" true = some ([], ["idf1", "idg1", "idG", "idF"]) ∧
    (∃ css : List (List String),
      css.length = (listChildrenQ dDel "idF").length ∧
      childrenCallsOk 1 dDel (listChildrenQ dDel "idF") css ∧
      ["idf1", "idg1", "idG", "idF"] = css.flatten ++ ["idF"] ∧
      (["idf1", "idg1", "idG", "idF"] : List String).length =
        ((listChildrenQ dDel "idF").filter
          (fun n => !(n.mimeType == folderMime))).length +
        ((((listChildrenQ dDel "idF").zip css).filter
            (fun p => p.1.mimeType == folderMime)).map (fun p => p.2.length)).sum
        + 1) :=
  ⟨by decide,
   delete_folder_recursive_children_before_parent 1 dDel "idF" []
     ["idf1", "idg1", "idG", "idF"] (by decide)⟩

/-- Remote calls issued by `delete_by_path`: the metadata lookup used for
type auto-detection, and remote delete calls. -/
inductive DCall where
  | getMeta (fileId : String)
  | del (fileId : String)
deriving DecidableEq, Repr

/-- Embedding of `delete_by_path(service, path, is_folder=None)` (drive.py lines
316-334): resolve the path; when `is_folder` is not supplied, fetch the
node's mime type once and compare it against the folder mime type; then
call `delete_folder(service, item_id)` — whose `recursive` parameter
defaults to `True` and is not forwarded — for folders, `delete_file`
otherwise.  Path-resolution errors propagate; `Except.ok none` means the
folder recursion exceeded its depth budget. -/
def delete_by_path (d : Drive) (path : String) (is_folder : Option Bool)
    (fuel : Nat) : Except DriveError (Option (Drive × List DCall)) :=
  match (find_id_by_path d path).1 with
  | Except.error e => Except.error e
  | Except.ok itemId =>
    match is_folder with
    | none =>
      if getMime d itemId == folderMime then
        match delete_folder fuel d itemId true with
        | none => Except.ok none
        | some (d1, calls) =>
          Except.ok (some (d1, DCall.getMeta itemId :: calls.map DCall.del))
      else
        Except.ok (some ((delete_file d itemId).1,
          [DCall.getMeta itemId, DCall.del itemId]))
    | some b =>
      if b then
        match delete_folder fuel d itemId true with
        | none => Except.ok none
        | some (d1, calls) => Except.ok (some (d1, calls.map DCall.del))
      else
        Except.ok (some ((delete_file d itemId).1, [DCall.del itemId]))

/-- C9: once the path resolves, `delete_by_path` (i) with
`is_folder=False` trusts the caller and issues a single plain delete of
the resolved node — even when that node is a folder with children; (ii)
with any supplied `is_folder` performs no metadata lookup at all; (iii)
with `is_folder=True` performs exactly the recursive folder deletion
(`recursive` is not exposed to the caller and defaults to true, so no
NotEmpty-style failure can arise); (iv) with `is_folder` unsupplied and a
folder mime type, one metadata lookup followed by the same recursive
deletion. -/
theorem delete_by_path_always_recursive (d : Drive) (path itemId : String)
    (fuel : Nat)
    (hres : (find_id_by_path d path).1 = Except.ok itemId) :
    (delete_by_path d path (some false) fuel =
       Except.ok (some (deleteNode d itemId, [DCall.del itemId]))) ∧
    (∀ (b : Bool) (d1 : Drive) (tr : List DCall),
       delete_by_path d path (some b) fuel = Except.ok (some (d1, tr)) →
       ∀ i, DCall.getMeta i ∉ tr) ∧
    (∀ (d1 : Drive) (calls : List String),
       delete_folder fuel d itemId true = some (d1, calls) →
       delete_by_path d path (some true) fuel =
         Except.ok (some (d1, calls.map DCall.del))) ∧
    (getMime d itemId = folderMime →
       ∀ (d1 : Drive) (calls : List String),
         delete_folder fuel d itemId true = some (d1, calls) →
         delete_by_path d path none fuel =
           Except.ok (some (d1, DCall.getMeta itemId :: calls.map DCall.del))) := by
  refine ⟨?_, ?_, ?_, ?_⟩
  · simp [delete_by_path, hres, delete_file]
  · intro b d1 tr htr i
    cases b with
    | false =>
      simp only [delete_by_path, hres, if_false, Bool.false_eq_true, delete_file,
        Except.ok.injEq, Option.some.injEq, Prod.mk.injEq] at htr
      rw [← htr.2]
      simp
    | true =>
      simp only [delete_by_path, hres, if_true] at htr
      cases hdf : delete_folder fuel d itemId true with
      | none =>
        simp only [hdf] at htr
        simp at htr
      | some q =>
        obtain ⟨d2, calls⟩ := q
        simp only [hdf, Except.ok.injEq, Option.some.injEq, Prod.mk.injEq] at htr
        rw [← htr.2]
        simp only [List.mem_map, not_exists]
        rintro x ⟨-, hx⟩
        exact DCall.noConfusion hx
  · intro d1 calls hdf
    simp [delete_by_path, hres, hdf]
  · intro hmime d1 calls hdf
    simp [delete_by_path, hres, hmime, hdf]

theorem delete_by_path_always_recursive_witness :
    (find_id_by_path dDel "/f").1 = Except.ok "idF" ∧
    ((delete_by_path dDel "/f" (some false) 2 =
       Except.ok (some (deleteNode dDel "idF", [DCall.del "idF"]))) ∧
    (∀ (b : Bool) (d1 : Drive) (tr : List DCall),
       delete_by_path dDel "/f" (some b) 2 = Except.ok (some (d1, tr)) →
       ∀ i, DCall.getMeta i ∉ tr) ∧
    (∀ (d1 : Drive) (calls : List String),
       delete_folder 2 dDel "idF" true = some (d1, calls) →
       delete_by_path dDel "/f" (some true) 2 =
         Except.ok (some (d1, calls.map DCall.del))) ∧
    (getMime dDel "idF" = folderMime →
       ∀ (d1 : Drive) (calls : List String),
         delete_folder 2 dDel "idF" true = some (d1, calls) →
         delete_by_path dDel "/f" none 2 =
           Except.ok (some (d1, DCall.getMeta "idF" :: calls.map DCall.del)))) :=
  ⟨by decide, delete_by_path_always_recursive dDel "/f" "idF" 2 (by decide)⟩

/-- One provider response to a page request of the listing loop: a page of
files plus whether a `nextPageToken` was returned, or a raised error. -/
inductive PageResult where
  | ok (files : List Node) (hasNext : Bool)
  | err (msg : String)
deriving DecidableEq, Repr

inductive ListError where
  | resolve (e : DriveError)
  | remote (msg : String)
  | outOfResponses
deriving DecidableEq, Repr

/-- The pagination loop of `list_files` (drive.py lines 353-378): request
pages one after another, extending the accumulated results, until a
response carries no `nextPageToken`; any raised page error is re-raised.
The provider is abstracted as the sequence of its successive responses
(page size and token are folded into that sequence);
`ListError.outOfResponses` marks the modelling artefact of the sequence
ending while a next page was still announced. -/
def pagesLoop : List PageResult → List Node → Except ListError (List Node)
  | [], _ => Except.error ListError.outOfResponses
  | PageResult.err m :: _, _ => Except.error (ListError.remote m)
  | PageResult.ok files hasNext :: rest, acc =>
    if hasNext then pagesLoop rest (acc ++ files)
    else Except.ok (acc ++ files)

/-- The effective `list_files(service, folder_path, ...)` (drive.py lines
336-384, the later definition, which shadows the one at lines 189-221):
resolve the folder path, then run the pagination loop over the folder
children query; errors from either stage propagate to the caller. -/
def list_files (d : Drive) (folder_path : String)
    (responses : List PageResult) : Except ListError (List Node) :=
  match (find_id_by_path d folder_path).1 with
  | Except.error e => Except.error (ListError.resolve e)
  | Except.ok _ => pagesLoop responses []

theorem pagesLoop_error_aborts (m : String) (rest : List PageResult) :
    ∀ (pre : List PageResult) (acc : List Node),
      (∀ p ∈ pre, ∃ fs, p = PageResult.ok fs true) →
      pagesLoop (pre ++ PageResult.err m :: rest) acc =
        Except.error (ListError.remote m) := by
  intro pre
  induction pre with
  | nil =>
    intro acc _
    simp [pagesLoop]
  | cons p pre ih =>
    intro acc hpre
    obtain ⟨fs, rfl⟩ := hpre p (by simp)
    simp only [List.cons_append, pagesLoop, if_true]
    exact ih (acc ++ fs) (fun q hq => hpre q (by simp [hq]))

/-- C5: if the path resolves and some page request of the listing loop
fails — all earlier responses were successful pages announcing a next
page, the next response is a raised error — then the whole `list_files`
call fails with exactly that remote error; in particular it never returns
the pages fetched so far as a success. -/
theorem list_files_page_failure_aborts (d : Drive) (folder_path fid m : String)
    (pre rest : List PageResult)
    (hres : (find_id_by_path d folder_path).1 = Except.ok fid)
    (hpre : ∀ p ∈ pre, ∃ fs, p = PageResult.ok fs true) :
    list_files d folder_path (pre ++ PageResult.err m :: rest) =
      Except.error (ListError.remote m) := by
  simp only [list_files, hres]
  exact pagesLoop_error_aborts m rest pre [] hpre

theorem list_files_page_failure_aborts_witness :
    (find_id_by_path driveAB "/").1 = Except.ok "root" ∧
    (∀ p ∈ [PageResult.ok [] true], ∃ fs, p = PageResult.ok fs true) ∧
    list_files driveAB "/"
        ([PageResult.ok [] true] ++ PageResult.err "boom" :: []) =
      Except.error (ListError.remote "boom") :=
  ⟨by decide,
   fun p hp => ⟨[], by simpa using hp⟩,
   list_files_page_failure_aborts driveAB "/" "root" "boom"
     [PageResult.ok [] true] [] (by decide)
     (fun p hp => ⟨[], by simpa using hp⟩)⟩

/-- Remote calls issued by `move_file`: the read of the node's current
parents, and the single update request with its `addParents` and
`removeParents` arguments. -/
inductive MCall where
  | readParents (fileId : String)
  | update (fileId : String) (addP : String) (removeP : List String)
deriving DecidableEq, Repr

/-- Model of `service.files().update(fileId=..., addParents=folder_id,
removeParents=previous_parents)`: every listed previous parent is removed
and the new parent appended, in one request.  The source passes
`removeParents` as the comma-join of the parent ids; the provider splits
it again, so it is modelled as the id list itself. -/
def updateParents (d : Drive) (fileId addP : String)
    (removeP : List String) : Drive :=
  d.map (fun n =>
    if n.id == fileId then
      { n with parents :=
          n.parents.filter (fun p => !(removeP.contains p)) ++ [addP] }
    else n)

/-- Embedding of `move_file(service, file_id, folder_id)` (drive.py lines 238-251, the
later of the two identical definitions): read the node's current parents,
then issue one update adding `folder_id` and removing all previously
listed parents. -/
def move_file (d : Drive) (fileId folderId : String) : Drive × List MCall :=
  let previous_parents := getParents d fileId
  (updateParents d fileId folderId previous_parents,
   [MCall.readParents fileId, MCall.update fileId folderId previous_parents])

theorem find?_updateParents (fileId addP : String) (removeP : List String) :
    ∀ (d : Drive) (n : Node),
      d.find? (fun m => m.id == fileId) = some n →
      (updateParents d fileId addP removeP).find? (fun m => m.id == fileId) =
        some { n with parents :=
          n.parents.filter (fun p => !(removeP.contains p)) ++ [addP] } := by
  intro d
  induction d with
  | nil =>
    intro n h
    exact Option.noConfusion h
  | cons a d ih =>
    intro n h
    cases ha : (a.id == fileId) with
    | true =>
      simp only [List.find?, ha] at h
      cases h
      simp only [updateParents, List.map, ha, if_true, List.find?]
    | false =>
      simp only [List.find?, ha] at h
      have := ih n h
      simp only [updateParents, List.map, ha, Bool.false_eq_true, if_false,
        List.find?] at this ⊢
      exact this

/-- C6: when the node currently has parents `{a}`, `move_file` issues
exactly two remote calls — first the read of the current parents, then a
single update that adds the destination and removes the previously listed
parent — and afterwards the node's parents are exactly `{destId}`. -/
theorem move_file_single_parent (d : Drive) (fileId destId a : String)
    (n : Node)
    (hfind : d.find? (fun m => m.id == fileId) = some n)
    (hpar : n.parents = [a]) :
    (move_file d fileId destId).2 =
      [MCall.readParents fileId, MCall.update fileId destId [a]] ∧
    (move_file d fileId destId).1.find? (fun m => m.id == fileId) =
      some { n with parents := [destId] } := by
  have hprev : getParents d fileId = [a] := by
    simp [getParents, hfind, hpar]
  constructor
  · simp [move_file, hprev]
  · have := find?_updateParents fileId destId [a] d n hfind
    simp only [move_file, hprev]
    rw [this, hpar]
    simp

/-- Store for the move claim: a file whose parents set is `{p1}`. -/
def dMove : Drive := [⟨"idX", "x", "text/plain", ["p1"], false⟩]

theorem move_file_single_parent_witness :
    dMove.find? (fun m => m.id == "idX") =
      some ⟨"idX", "x", "text/plain", ["p1"], false⟩ ∧
    (⟨"idX", "x", "text/plain", ["p1"], false⟩ : Node).parents = ["p1"] ∧
    ((move_file dMove "idX" "dest").2 =
       [MCall.readParents "idX", MCall.update "idX" "dest" ["p1"]] ∧
     (move_file dMove "idX" "dest").1.find? (fun m => m.id == "idX") =
       some ⟨"idX", "x", "text/plain", ["dest"], false⟩) :=
  ⟨by decide, by decide,
   move_file_single_parent dMove "idX" "dest" "p1"
     ⟨"idX", "x", "text/plain", ["p1"], false⟩ (by decide) (by decide)⟩

/-- Python `s.startswith(t)`. -/
def pyStartswith (s t : String) : Bool :=
  t.data.isPrefixOf s.data

/-- The provider's content endpoints: `files().export(fileId, mimeType)`
and the chunked `files().get_media` download, whose chunks the source
accumulates until the downloader reports completion. -/
structure Provider where
  exportBytes : String → String → List Nat
  downloadChunks : String → List (List Nat)

/-- Remote content calls issued by `get_file_content`. -/
inductive RCall where
  | exportCall (fileId : String) (mime : String)
  | downloadCall (fileId : String)
deriving DecidableEq, Repr

/-- The effective `get_file_content(service, file_path)` (drive.py lines
386-436, shadowing the id-based variant at lines 140-187, whose branching
is identical): resolve the path, read the node's mime type, and for
Google Workspace types export with the fixed mapping document → plain
text, spreadsheet → CSV, presentation → PDF, raising `ValueError` for any
other Workspace type; all other nodes go through the chunked raw
download, concatenating the chunks. -/
def get_file_content (d : Drive) (pv : Provider) (file_path : String) :
    Except DriveError (List Nat) × List RCall :=
  match (find_id_by_path d file_path).1 with
  | Except.error e => (Except.error e, [])
  | Except.ok fileId =>
    let mime := getMime d fileId
    if pyStartswith mime vndGoogleApps then
      if mime == docMime then
        (Except.ok (pv.exportBytes fileId "text/plain"),
         [RCall.exportCall fileId "text/plain"])
      else if mime == sheetMime then
        (Except.ok (pv.exportBytes fileId "text/csv"),
         [RCall.exportCall fileId "text/csv"])
      else if mime == slidesMime then
        (Except.ok (pv.exportBytes fileId "application/pdf"),
         [RCall.exportCall fileId "application/pdf"])
      else
        (Except.error (DriveError.valueError mime), [])
    else
      (Except.ok (pv.downloadChunks fileId).flatten,
       [RCall.downloadCall fileId])

/-- C7: on a node whose mime type is in the Google Workspace family,
`get_file_content` never touches the raw chunked-download path, exports
documents as plain text, spreadsheets as CSV and presentations as PDF,
and fails with `ValueError` (no remote call, no empty success) on every
other Workspace sub-type. -/
theorem get_file_content_virtual_exports (d : Drive) (pv : Provider)
    (file_path fileId : String)
    (hres : (find_id_by_path d file_path).1 = Except.ok fileId)
    (hv : pyStartswith (getMime d fileId) vndGoogleApps = true) :
    (∀ i, RCall.downloadCall i ∉ (get_file_content d pv file_path).2) ∧
    (getMime d fileId = docMime →
       get_file_content d pv file_path =
         (Except.ok (pv.exportBytes fileId "text/plain"),
          [RCall.exportCall fileId "text/plain"])) ∧
    (getMime d fileId = sheetMime →
       get_file_content d pv file_path =
         (Except.ok (pv.exportBytes fileId "text/csv"),
          [RCall.exportCall fileId "text/csv"])) ∧
    (getMime d fileId = slidesMime →
       get_file_content d pv file_path =
         (Except.ok (pv.exportBytes fileId "application/pdf"),
          [RCall.exportCall fileId "application/pdf"])) ∧
    (getMime d fileId ≠ docMime → getMime d fileId ≠ sheetMime →
       getMime d fileId ≠ slidesMime →
       get_file_content d pv file_path =
         (Except.error (DriveError.valueError (getMime d fileId)), [])) := by
  have hd1 : pyStartswith docMime vndGoogleApps = true := by decide
  have hd2 : pyStartswith sheetMime vndGoogleApps = true := by decide
  have hd3 : pyStartswith slidesMime vndGoogleApps = true := by decide
  have hne1 : ¬(sheetMime = docMime) := by decide
  have hne2 : ¬(slidesMime = docMime) := by decide
  have hne3 : ¬(slidesMime = sheetMime) := by decide
  refine ⟨?_, ?_, ?_, ?_, ?_⟩
  · intro i
    simp only [get_file_content, hres, hv, if_true]
    by_cases h1 : getMime d fileId = docMime
    · simp [h1]
    · by_cases h2 : getMime d fileId = sheetMime
      · simp [h1, h2, hne1]
      · by_cases h3 : getMime d fileId = slidesMime
        · simp [h1, h2, h3, hne2, hne3]
        · simp [h1, h2, h3]
  · intro h1
    simp [get_file_content, hres, h1, hd1]
  · intro h2
    simp [get_file_content, hres, h2, hd2, hne1]
  · intro h3
    simp [get_file_content, hres, h3, hd3, hne2, hne3]
  · intro h1 h2 h3
    simp [get_file_content, hres, hv, h1, h2, h3]

/-- Store for the content claim: a Workspace spreadsheet at path `s`. -/
def dSheet : Drive := [⟨"idS", "s", sheetMime, ["root"], false⟩]

/-- A concrete provider for evaluating the content claim. -/
def pvDemo : Provider :=
  ⟨fun _ _ => [1, 2, 3], fun _ => [[7], [8]]⟩

theorem get_file_content_virtual_exports_witness :
    (find_id_by_path dSheet "/s").1 = Except.ok "idS" ∧
    pyStartswith (getMime dSheet "idS") vndGoogleApps = true ∧
    ((∀ i, RCall.downloadCall i ∉ (get_file_content dSheet pvDemo "/s").2) ∧
     (getMime dSheet "idS" = docMime →
        get_file_content dSheet pvDemo "/s" =
          (Except.ok (pvDemo.exportBytes "idS" "text/plain"),
           [RCall.exportCall "idS" "text/plain"])) ∧
     (getMime dSheet "idS" = sheetMime →
        get_file_content dSheet pvDemo "/s" =
          (Except.ok (pvDemo.exportBytes "idS" "text/csv"),
           [RCall.exportCall "idS" "text/csv"])) ∧
     (getMime dSheet "idS" = slidesMime →
        get_file_content dSheet pvDemo "/s" =
          (Except.ok (pvDemo.exportBytes "idS" "application/pdf"),
           [RCall.exportCall "idS" "application/pdf"])) ∧
     (getMime dSheet "idS" ≠ docMime → getMime dSheet "idS" ≠ sheetMime →
        getMime dSheet "idS" ≠ slidesMime →
        get_file_content dSheet pvDemo "/s" =
          (Except.error (DriveError.valueError (getMime dSheet "idS")), []))) :=
  ⟨by decide, by decide,
   get_file_content_virtual_exports dSheet pvDemo "/s" "idS"
     (by decide) (by decide)⟩

/-- Python `os.path.basename(s)`: the part after the last `'/'`. -/
def pyBasename (s : String) : String :=
  String.mk ((s.data.reverse.takeWhile (fun c => c != '/')).reverse)

/-- Python `os.path.splitext(s)` for a slash-free `s` (the source applies
it to the basename): split off the extension at the last `'.'`, except
when every character before that dot is itself a dot (e.g. `".bashrc"`,
`"..py"`), in which case there is no extension. -/
def pySplitext (s : String) : String × String :=
  match s.data.reverse.dropWhile (fun c => c != '.') with
  | [] => (s, "")
  | _ :: beforeRev =>
    if beforeRev.all (fun c => c == '.') then (s, "")
    else (String.mk beforeRev.reverse,
      String.mk ('.' :: (s.data.reverse.takeWhile (fun c => c != '.')).reverse))

/-- Python `str(n)` for the collision counter: the decimal digits of `n`
(for the positive counters the source renders). -/
def natDec (n : Nat) : String :=
  String.mk ((Nat.digits 10 n).reverse.map Nat.digitChar)

/-- The successive file paths the collision loop of
`save_file_to_documents` tries: the cleaned name itself first, then
`f"{base_name}_{counter}{extension}"` for counter 1, 2, ... -/
def saveCandidate (docDir safe base ext : String) : Nat → String
  | 0 => docDir ++ "/" ++ safe
  | Nat.succ k => docDir ++ "/" ++ base ++ "_" ++ natDec (k + 1) ++ ext

/-- The `while os.path.exists(file_path)` loop (drive.py lines 129-131):
try candidates in order until one does not exist yet.  `fuel` bounds the
iterations; the existence check is membership in the finite set of
already existing paths. -/
def findFresh (existing : List String) (cand : Nat → String) :
    Nat → Nat → Option String
  | 0, _ => none
  | Nat.succ fuel, k =>
    if cand k ∈ existing then findFresh existing cand fuel (k + 1)
    else some (cand k)

/-- The path logic of `save_file_to_documents(content, filename)`
(drive.py lines 104-138): clean the filename to its basename, split base
name and extension, and probe candidate paths inside the documents
directory until an unused one is found.  The filesystem is abstracted as
the list of already existing paths; `existing.length + 1` probes always
suffice (proved below), so the fuel is not a semantic restriction. -/
def save_file_to_documents (existing : List String)
    (docDir filename : String) : Option String :=
  findFresh existing
    (saveCandidate docDir (pyBasename filename)
      (pySplitext (pyBasename filename)).1 (pySplitext (pyBasename filename)).2)
    (existing.length + 1) 0

theorem dropWhile_head_false (p : Char → Bool) :
    ∀ (l t : List Char) (c : Char), l.dropWhile p = c :: t → p c = false := by
  intro l
  induction l with
  | nil =>
    intro t c h
    exact List.noConfusion h
  | cons a l ih =>
    intro t c h
    cases hpa : p a with
    | true =>
      rw [List.dropWhile_cons, hpa] at h
      simp only [if_true] at h
      exact ih t c h
    | false =>
      rw [List.dropWhile_cons, hpa] at h
      simp only [Bool.false_eq_true, if_false, List.cons.injEq] at h
      rw [← h.1]
      exact hpa

theorem pySplitext_data (s : String) :
    (pySplitext s).1.data ++ (pySplitext s).2.data = s.data := by
  unfold pySplitext
  cases hdp : s.data.reverse.dropWhile (fun c => c != '.') with
  | nil => simp
  | cons c beforeRev =>
    have hc : (c != '.') = false :=
      dropWhile_head_false (fun x => x != '.') s.data.reverse beforeRev c hdp
    have hc2 : c = '.' := by simpa using hc
    by_cases hall : beforeRev.all (fun x => x == '.')
    · simp [hall]
    · simp only [hall, Bool.false_eq_true, if_false]
      have hsplit := List.takeWhile_append_dropWhile (p := fun c => c != '.')
        (l := s.data.reverse)
      rw [hdp, hc2] at hsplit
      have : s.data = beforeRev.reverse ++
          '.' :: (s.data.reverse.takeWhile (fun c => c != '.')).reverse := by
        conv_lhs => rw [← List.reverse_reverse s.data, ← hsplit]
        simp
      exact this.symm

theorem pyBasename_no_slash (s : String) :
    ∀ c ∈ (pyBasename s).data, c ≠ '/' := by
  intro c hc
  have hc2 : c ∈ (s.data.reverse.takeWhile (fun x => x != '/')).reverse := hc
  rw [List.mem_reverse] at hc2
  have := List.mem_takeWhile_imp hc2
  simpa using this

theorem natDec_no_slash (n : Nat) : ∀ c ∈ (natDec n).data, c ≠ '/' := by
  intro c hc
  have hc2 : c ∈ (Nat.digits 10 n).reverse.map Nat.digitChar := hc
  rw [List.mem_map] at hc2
  obtain ⟨d, hd, rfl⟩ := hc2
  rw [List.mem_reverse] at hd
  have hlt : d < 10 := Nat.digits_lt_base (by norm_num) hd
  have : ∀ d < 10, Nat.digitChar d ≠ '/' := by decide
  exact this d hlt

theorem map_digitChar_inj :
    ∀ (l1 l2 : List Nat), (∀ d ∈ l1, d < 10) → (∀ d ∈ l2, d < 10) →
      l1.map Nat.digitChar = l2.map Nat.digitChar → l1 = l2 := by
  intro l1
  induction l1 with
  | nil =>
    intro l2 _ _ h
    cases l2 with
    | nil => rfl
    | cons b l2 => exact List.noConfusion h
  | cons a l1 ih =>
    intro l2 h1 h2 h
    cases l2 with
    | nil => exact List.noConfusion h
    | cons b l2 =>
      simp only [List.map, List.cons.injEq] at h
      have hinj : ∀ x < 10, ∀ y < 10, Nat.digitChar x = Nat.digitChar y → x = y := by
        decide
      have hab : a = b :=
        hinj a (h1 a (by simp)) b (h2 b (by simp)) h.1
      have htail : l1 = l2 :=
        ih l2 (fun d hd => h1 d (by simp [hd])) (fun d hd => h2 d (by simp [hd])) h.2
      rw [hab, htail]

theorem natDec_injective : Function.Injective natDec := by
  intro m n h
  have hdata : (Nat.digits 10 m).reverse.map Nat.digitChar =
      (Nat.digits 10 n).reverse.map Nat.digitChar := congrArg String.data h
  have hrev : (Nat.digits 10 m).reverse = (Nat.digits 10 n).reverse :=
    map_digitChar_inj _ _
      (fun d hd => Nat.digits_lt_base (by norm_num) (List.mem_reverse.mp hd))
      (fun d hd => Nat.digits_lt_base (by norm_num) (List.mem_reverse.mp hd))
      hdata
  have hdig : Nat.digits 10 m = Nat.digits 10 n := by
    simpa using congrArg List.reverse hrev
  calc m = Nat.ofDigits 10 (Nat.digits 10 m) := (Nat.ofDigits_digits 10 m).symm
    _ = Nat.ofDigits 10 (Nat.digits 10 n) := by rw [hdig]
    _ = n := Nat.ofDigits_digits 10 n

theorem saveCandidate_injective (docDir safe base ext : String)
    (hsplit : base.data ++ ext.data = safe.data) :
    Function.Injective (saveCandidate docDir safe base ext) := by
  have key : ∀ k : Nat,
      docDir ++ "/" ++ safe ≠ docDir ++ "/" ++ base ++ "_" ++ natDec (k + 1) ++ ext := by
    intro k h
    have hd := congrArg String.data h
    simp only [String.data_append] at hd
    rw [← hsplit] at hd
    simp only [List.append_assoc] at hd
    have h1 := List.append_cancel_left hd
    have h2 := List.append_cancel_left h1
    have h3 := List.append_cancel_left h2
    have hlen := congrArg List.length h3
    have hu : ("_" : String).data.length = 1 := by decide
    simp only [List.length_append, hu] at hlen
    omega
  intro j k h
  match j, k with
  | 0, 0 => rfl
  | 0, Nat.succ k =>
    simp only [saveCandidate] at h
    exact absurd h (key k)
  | Nat.succ j, 0 =>
    simp only [saveCandidate] at h
    exact absurd h.symm (key j)
  | Nat.succ j, Nat.succ k =>
    simp only [saveCandidate] at h
    have hd := congrArg String.data h
    simp only [String.data_append, List.append_assoc] at hd
    have h1 := List.append_cancel_left hd
    have h2 := List.append_cancel_left h1
    have h3 := List.append_cancel_left h2
    have h4 := List.append_cancel_left h3
    have h5 := List.append_cancel_right h4
    have h6 := natDec_injective (String.ext h5)
    omega

theorem findFresh_none (existing : List String) (cand : Nat → String) :
    ∀ (fuel k : Nat), findFresh existing cand fuel k = none →
      ∀ j < fuel, cand (k + j) ∈ existing := by
  intro fuel
  induction fuel with
  | zero =>
    intro k _ j hj
    exact absurd hj (by omega)
  | succ fuel ih =>
    intro k h j hj
    by_cases hmem : cand k ∈ existing
    · simp only [findFresh, if_pos hmem] at h
      cases j with
      | zero => simpa using hmem
      | succ j =>
        have hr := ih (k + 1) h j (by omega)
        rwa [show k + 1 + j = k + (j + 1) by omega] at hr
    · simp only [findFresh, if_neg hmem] at h
      exact Option.noConfusion h

theorem findFresh_some (existing : List String) (cand : Nat → String) :
    ∀ (fuel k : Nat) (p : String), findFresh existing cand fuel k = some p →
      ∃ j, p = cand (k + j) ∧ cand (k + j) ∉ existing ∧
        ∀ i < j, cand (k + i) ∈ existing := by
  intro fuel
  induction fuel with
  | zero =>
    intro k p h
    exact Option.noConfusion h
  | succ fuel ih =>
    intro k p h
    by_cases hmem : cand k ∈ existing
    · simp only [findFresh, if_pos hmem] at h
      obtain ⟨j, hp, hnot, hprev⟩ := ih (k + 1) p h
      refine ⟨j + 1, ?_, ?_, ?_⟩
      · rwa [show k + (j + 1) = k + 1 + j by omega]
      · rwa [show k + (j + 1) = k + 1 + j by omega]
      · intro i hi
        cases i with
        | zero => simpa using hmem
        | succ i =>
          have hr := hprev i (by omega)
          rwa [show k + 1 + i = k + (i + 1) by omega] at hr
    · simp only [findFresh, if_neg hmem] at h
      cases h
      refine ⟨0, by simp, by simpa using hmem, ?_⟩
      intro i hi
      exact absurd hi (by omega)

theorem findFresh_succeeds (existing : List String) (cand : Nat → String)
    (hinj : Function.Injective cand) :
    ∃ p, findFresh existing cand (existing.length + 1) 0 = some p := by
  cases hf : findFresh existing cand (existing.length + 1) 0 with
  | some p => exact ⟨p, rfl⟩
  | none =>
    exfalso
    have hall : ∀ j < existing.length + 1, cand j ∈ existing := by
      intro j hj
      have hr := findFresh_none existing cand (existing.length + 1) 0 hf j hj
      simpa using hr
    have hnodup : ((List.range (existing.length + 1)).map cand).Nodup :=
      (List.nodup_range (existing.length + 1)).map hinj
    have hcard : ((List.range (existing.length + 1)).map cand).toFinset.card ≤
        existing.toFinset.card := by
      apply Finset.card_le_card
      intro x hx
      rw [List.mem_toFinset] at hx ⊢
      rw [List.mem_map] at hx
      obtain ⟨j, hj, rfl⟩ := hx
      exact hall j (List.mem_range.mp hj)
    rw [List.toFinset_card_of_nodup hnodup] at hcard
    have h2 : existing.toFinset.card ≤ existing.length := existing.toFinset_card_le
    simp only [List.length_map, List.length_range] at hcard
    omega

/-- C10: `save_file_to_documents` always returns a path; the returned
path did not exist before the call; it is reached by probing the
candidate sequence in order — the cleaned basename first, then the base
name with the numeric suffixes `_1`, `_2`, ... — with every earlier
candidate already existing; and it lies inside the documents directory:
it is the directory joined with a single slash-free name component
derived only from the basename of the supplied filename. -/
theorem save_file_to_documents_fresh (existing : List String)
    (docDir filename : String) :
    ∃ (p : String) (j : Nat),
      save_file_to_documents existing docDir filename = some p ∧
      p ∉ existing ∧
      p = saveCandidate docDir (pyBasename filename)
            (pySplitext (pyBasename filename)).1
            (pySplitext (pyBasename filename)).2 j ∧
      (∀ i < j, saveCandidate docDir (pyBasename filename)
            (pySplitext (pyBasename filename)).1
            (pySplitext (pyBasename filename)).2 i ∈ existing) ∧
      ∃ nm : String, p = docDir ++ "/" ++ nm ∧ ∀ c ∈ nm.data, c ≠ '/' := by
  have hsplit : (pySplitext (pyBasename filename)).1.data ++
      (pySplitext (pyBasename filename)).2.data = (pyBasename filename).data :=
    pySplitext_data (pyBasename filename)
  have hinj := saveCandidate_injective docDir (pyBasename filename)
    (pySplitext (pyBasename filename)).1 (pySplitext (pyBasename filename)).2 hsplit
  obtain ⟨p, hp⟩ := findFresh_succeeds existing
    (saveCandidate docDir (pyBasename filename)
      (pySplitext (pyBasename filename)).1 (pySplitext (pyBasename filename)).2)
    hinj
  obtain ⟨j, hpj, hnot, hprev⟩ := findFresh_some existing
    (saveCandidate docDir (pyBasename filename)
      (pySplitext (pyBasename filename)).1 (pySplitext (pyBasename filename)).2)
    (existing.length + 1) 0 p hp
  simp only [Nat.zero_add] at hpj hnot hprev
  refine ⟨p, j, hp, ?_, hpj, hprev, ?_⟩
  · rwa [← hpj] at hnot
  · cases j with
    | zero =>
      refine ⟨pyBasename filename, ?_, ?_⟩
      · rw [hpj]
        rfl
      · exact pyBasename_no_slash filename
    | succ k =>
      refine ⟨(pySplitext (pyBasename filename)).1 ++ "_" ++ natDec (k + 1) ++
          (pySplitext (pyBasename filename)).2, ?_, ?_⟩
      · rw [hpj]
        simp only [saveCandidate]
        apply String.ext
        simp [String.data_append, List.append_assoc]
      · intro c hc
        have hc2 : c ∈ (pySplitext (pyBasename filename)).1.data ++
            (("_" : String).data ++ ((natDec (k + 1)).data ++
              (pySplitext (pyBasename filename)).2.data)) := by
          simpa [String.data_append, List.append_assoc] using hc
        rw [List.mem_append] at hc2
        rcases hc2 with hb | hc3
        · have hmem : c ∈ (pyBasename filename).data := by
            rw [← hsplit]
            exact List.mem_append.mpr (Or.inl hb)
          exact pyBasename_no_slash filename c hmem
        · rw [List.mem_append] at hc3
          rcases hc3 with hu | hc4
          · have hueq : ("_" : String).data = ['_'] := rfl
            rw [hueq, List.mem_singleton] at hu
            rw [hu]
            decide
          · rw [List.mem_append] at hc4
            rcases hc4 with hn | he
            · exact natDec_no_slash (k + 1) c hn
            · have hmem : c ∈ (pyBasename filename).data := by
                rw [← hsplit]
                exact List.mem_append.mpr (Or.inr he)
              exact pyBasename_no_slash filename c hmem
